import Mathlib

/-!
# Verification of the vuex3 module tree and dispatch/commit engine

Shallow embedding of the repository's core:
* `src/unnamed/part_000` — `ModuleCollection` (register / unregister / get /
  getNamespace / isRegistered / hot `update`);
* `src/src/module/module.js` — `Module` (children map, `update`);
* `src/src/mixin.js` (concatenation of `mixin.js`, `store.js`, `index.js`) —
  the `Store` class: `commit`, `dispatch`, `_withCommit`, `genericSubscribe`,
  `subscribeAction`, `makeLocalContext`, `unifyObjectStyle`.

Modelling conventions:
* JS values are the inductive `Vuex.Value`; `undefined` is `Value.undef`.
* We model the production build: `__DEV__` is `false`, so `assert` calls and
  `console` diagnostics are skipped (they have no semantic effect beyond
  logging in the fragments below; the one dev-only early return, inside
  `makeLocalContext`'s unknown-type check, is noted where it matters).
* JS objects are association lists with unique keys.  `delete obj[key]`
  is rendered as removal of every binding of the key (identical on the
  unique-key representatives actually produced by the code).
* A JS statement that throws is rendered with `Except`: `JsErr.typeError`
  for property access on `undefined`, `JsErr.referenceErrorW` for the stray
  top-level identifier `w` in `Store.dispatch`.
-/

namespace Vuex

/-- JS runtime values, as far as the analysed fragments inspect them. -/
inductive Value where
  | undef
  | null
  | bool (b : Bool)
  | num (n : Int)
  | str (s : String)
  | list (xs : List Value)
  | obj (fields : List (String × Value))

/-- JS errors thrown by the analysed fragments. -/
inductive JsErr where
  /-- A `TypeError`: property access / method call on `undefined`. -/
  | typeError
  /-- The `ReferenceError: w is not defined` thrown by the stray statement `w;` in
  `Store.dispatch` (src/src/mixin.js line 333 of the concatenated file). -/
  | referenceErrorW
  deriving Repr, DecidableEq

/-- First-binding lookup in an association list (JS property read on an
object whose keys are unique). -/
def getAssoc {α : Type} : List (String × α) → String → Option α
  | [], _ => none
  | (k, v) :: rest, key => if k = key then some v else getAssoc rest key

/-- Assignment `obj[key] = v`: replace the first binding of `key`, or append a new one. -/
def setAssoc {α : Type} : List (String × α) → String → α → List (String × α)
  | [], key, v => [(key, v)]
  | (k, w) :: rest, key, v =>
      if k = key then (key, v) :: rest else (k, w) :: setAssoc rest key v

/-- Deletion `delete obj[key]`: drop the binding(s) of `key` (keys are unique in a JS
object, so dropping every binding is the faithful rendering). -/
def removeAssoc {α : Type} (l : List (String × α)) (key : String) :
    List (String × α) :=
  l.filter (fun p => p.1 ≠ key)

/-- Keys of an association list. -/
def keysOf {α : Type} (l : List (String × α)) : List String := l.map Prod.fst

/-- Truthiness of a JS value (`NaN` is outside the model: numbers are `Int`). -/
def truthy : Value → Bool
  | .undef => false
  | .null => false
  | .bool b => b
  | .num n => n != 0
  | .str s => s ≠ ""
  | .list _ => true
  | .obj _ => true

/-- Predicate `isObject` from src/src/util.js: `obj !== null && typeof obj === "object"`
(arrays included, `null` excluded). -/
def isObject : Value → Bool
  | .obj _ => true
  | .list _ => true
  | _ => false

/-- Property read `v[name]` on a value already known to be an object
(`undefined` when the field is absent or the value has no fields). -/
def getField : Value → String → Value
  | .obj fields, name => (getAssoc fields name).getD .undef
  | _, _ => .undef

mutual

/-- JS string coercion, for the string concatenation `namespace + type` in
`makeLocalContext` (an array joins its elements with `","`, `null` and
`undefined` elements joining as `""`). -/
def jsToString : Value → String
  | .undef => "undefined"
  | .null => "null"
  | .bool b => if b then "true" else "false"
  | .num n => toString n
  | .str s => s
  | .list xs => String.intercalate (",") (jsToStringList xs)
  | .obj _ => "[object Object]"

/-- Element-wise coercion used by `Array.prototype.join`. -/
def jsToStringList : List Value → List String
  | [] => []
  | .undef :: rest => "" :: jsToStringList rest
  | .null :: rest => "" :: jsToStringList rest
  | v :: rest => jsToString v :: jsToStringList rest

end

/-!
## Module and ModuleCollection (src/src/module/module.js, src/unnamed/part_000)

A `ModuleCollection` instance is just its `root` module, so the
`ModuleCollection.*` operations below take the root `Module` as their first
argument.  In-place mutation of a module found by a path lookup (e.g.
`parent.addChild(...)` after `this.get(path.slice(0, -1))`) is rendered as a
functional update of the root along that path (`modifyAt`).
-/

/-- A raw module declaration (the `options` / nested `modules` values).
`namespaced` is stored already booleanised (the source only reads it through
`!!this._rawModule.namespaced`).  A function-valued `state` initialiser is
outside the value model; `stateInit` holds the initial state value. -/
inductive Raw where
  | mk (namespaced : Bool) (stateInit getters mutations actions : Value)
       (modules : List (String × Raw))

def Raw.namespaced : Raw → Bool
  | .mk ns _ _ _ _ _ => ns

def Raw.stateInit : Raw → Value
  | .mk _ st _ _ _ _ => st

def Raw.getters : Raw → Value
  | .mk _ _ g _ _ _ => g

def Raw.mutations : Raw → Value
  | .mk _ _ _ mu _ _ => mu

def Raw.actions : Raw → Value
  | .mk _ _ _ _ ac _ => ac

def Raw.modules : Raw → List (String × Raw)
  | .mk _ _ _ _ _ mods => mods

/-- A `Module` instance: `runtime` flag, materialised `state`, the stored
`_rawModule` fields that `Module.update` replaces, and the `_children` map. -/
inductive Module where
  | mk (runtime : Bool) (stateV : Value) (rawNamespaced : Bool)
       (rawGetters rawMutations rawActions : Value)
       (children : List (String × Module))

def Module.runtime : Module → Bool
  | .mk rt _ _ _ _ _ _ => rt

def Module.stateV : Module → Value
  | .mk _ st _ _ _ _ _ => st

def Module.rawNamespaced : Module → Bool
  | .mk _ _ ns _ _ _ _ => ns

def Module.rawGetters : Module → Value
  | .mk _ _ _ g _ _ _ => g

def Module.rawMutations : Module → Value
  | .mk _ _ _ _ mu _ _ => mu

def Module.rawActions : Module → Value
  | .mk _ _ _ _ _ ac _ => ac

def Module.children : Module → List (String × Module)
  | .mk _ _ _ _ _ _ cs => cs

/-- Getter `get namespaced()` — `!!this._rawModule.namespaced` (already a `Bool`). -/
def Module.namespaced (m : Module) : Bool := m.rawNamespaced

/-- Replace the `_children` map, keeping every other field. -/
def Module.withChildren : Module → List (String × Module) → Module
  | .mk rt st ns g mu ac _, cs => .mk rt st ns g mu ac cs

/-- Method `addChild(key, module)`: `this._children[key] = module`. -/
def Module.addChild (m : Module) (key : String) (c : Module) : Module :=
  m.withChildren (setAssoc m.children key c)

/-- Method `removeChild(key)`: `delete this._children[key]`. -/
def Module.removeChild (m : Module) (key : String) : Module :=
  m.withChildren (removeAssoc m.children key)

/-- Method `getChild(key)`: `this._children[key]` (`undefined` rendered as `none`). -/
def Module.getChild (m : Module) (key : String) : Option Module :=
  getAssoc m.children key

/-- Method `hasChild(key)`: `key in this._children`. -/
def Module.hasChild (m : Module) (key : String) : Bool :=
  (getAssoc m.children key).isSome

/-- The `Module` constructor: runtime flag, empty `_children`, raw fields,
and `this.state = rawState || {}` (a falsy declared state yields `{}`). -/
def mkModule (raw : Raw) (rt : Bool) : Module :=
  .mk rt (if truthy raw.stateInit then raw.stateInit else .obj [])
    raw.namespaced raw.getters raw.mutations raw.actions []

/-- Method `Module.update(rawModule)` (src/src/module/module.js lines 94-110):
always replaces `namespaced`; replaces `getters` / `mutations` / `actions`
only when present (truthy) on the new declaration; never touches `state`,
`runtime` or `_children`. -/
def Module.updateTop (m : Module) (n : Raw) : Module :=
  match m with
  | .mk rt st _ g mu ac cs =>
      .mk rt st n.namespaced
        (if truthy n.getters then n.getters else g)
        (if truthy n.mutations then n.mutations else mu)
        (if truthy n.actions then n.actions else ac)
        cs

/-- Pure path walk: `some` iff every segment resolves to an existing child.
Used to state resolution hypotheses; the engine's own walk is
`ModuleCollection.get` below, which can throw. -/
def pathGet : Module → List String → Option Module
  | m, [] => some m
  | m, k :: rest =>
      match m.getChild k with
      | none => none
      | some c => pathGet c rest

/-- Functional update of the module found at `path` (the rendering of an
in-place mutation of that module); `none` when the path does not resolve
(in JS the lookup would have produced `undefined` and the mutation thrown). -/
def modifyAt : Module → List String → (Module → Module) → Option Module
  | m, [], f => some (f m)
  | m, k :: rest, f =>
      match m.getChild k with
      | none => none
      | some c => (modifyAt c rest f).map fun c' => m.addChild k c'

/-- The `reduce` walk of `ModuleCollection.get`: the accumulator may become
`undefined`; calling `.getChild` on it then throws a `TypeError`. -/
def mcGetGo : Option Module → List String → Except JsErr (Option Module)
  | acc, [] => .ok acc
  | none, _ :: _ => .error .typeError
  | some m, k :: rest => mcGetGo (m.getChild k) rest

/-- Source `ModuleCollection.get(path)` (src/unnamed/part_000 lines 26-31). -/
def ModuleCollection.get (root : Module) (path : List String) :
    Except JsErr (Option Module) :=
  mcGetGo (some root) path

/-- The `reduce` walk of `getNamespace`: `module = module.getChild(key)` and
then `module.namespaced` — which throws if the child was missing. -/
def getNamespaceGo : Module → String → List String → Except JsErr String
  | _, acc, [] => .ok acc
  | m, acc, k :: rest =>
      match m.getChild k with
      | none => .error .typeError
      | some c => getNamespaceGo c (acc ++ (if c.namespaced then k ++ "/" else "")) rest

/-- Source `ModuleCollection.getNamespace(path)` (src/unnamed/part_000 lines 38-50). -/
def ModuleCollection.getNamespace (root : Module) (path : List String) :
    Except JsErr String :=
  getNamespaceGo root ("") path

mutual

/-- Source `ModuleCollection.register(path, rawModule, runtime)` (src/unnamed/part_000
lines 66-137), production build (`assertRawModule` is dev-only).  Creates the
new `Module`; an empty path replaces the root, otherwise the parent found at
`path.slice(0, -1)` gains the child under the last key; then every entry of
`rawModule.modules` is registered under `path.concat(key)` with the same
`runtime` flag.  `none` renders the JS throw when the parent lookup fails. -/
def ModuleCollection.register (root : Module) (path : List String) :
    Raw → Bool → Option Module
  | raw@(.mk _ _ _ _ _ mods), rt =>
      let newModule := mkModule raw rt
      let root1 : Option Module :=
        if path = [] then some newModule
        else modifyAt root path.dropLast
          (fun parent => parent.addChild (path.getLastD ("")) newModule)
      match root1 with
      | none => none
      | some r => registerModules r path mods rt
termination_by raw _ => sizeOf raw

/-- The `forEachValue(rawModule.modules, ...)` recursion of `register`. -/
def registerModules (root : Module) (path : List String) :
    List (String × Raw) → Bool → Option Module
  | [], _ => some root
  | (key, rawChild) :: rest, rt =>
      match ModuleCollection.register root (path ++ [key]) rawChild rt with
      | none => none
      | some r => registerModules r path rest rt
termination_by l _ => sizeOf l

end

/-- Source `ModuleCollection.unregister(path)` (src/unnamed/part_000 lines 142-167):
parent lookup, then warn-and-return if the child is missing, silent return if
the child is not a runtime module, otherwise `parent.removeChild(key)`. -/
def ModuleCollection.unregister (root : Module) (path : List String) :
    Except JsErr Module :=
  match ModuleCollection.get root path.dropLast with
  | .error e => .error e
  | .ok none => .error .typeError
  | .ok (some parent) =>
      let key := path.getLastD ("")
      match parent.getChild key with
      | none => .ok root
      | some child =>
          if !child.runtime then .ok root
          else .ok ((modifyAt root path.dropLast (fun p => p.removeChild key)).getD root)

/-- Source `ModuleCollection.isRegistered(path)` (src/unnamed/part_000
lines 172-185). -/
def ModuleCollection.isRegistered (root : Module) (path : List String) :
    Except JsErr Bool :=
  match ModuleCollection.get root path.dropLast with
  | .error e => .error e
  | .ok none => .ok false
  | .ok (some parent) => .ok (parent.hasChild (path.getLastD ("")))

mutual

/-- The module-file-local `update(path, targetModule, newModule)`
(src/unnamed/part_000 lines 188-223): updates the target's raw fields, then
walks `newModule.modules`; an entry whose key has no matching child aborts
the walk (warn-and-return), otherwise the child is updated recursively. -/
def updateGo (target : Module) : Raw → Module
  | n@(.mk _ _ _ _ _ mods) => updateModules (target.updateTop n) mods
termination_by n => sizeOf n

/-- The `for (const key in newModule.modules)` loop of `update`. -/
def updateModules (target : Module) : List (String × Raw) → Module
  | [] => target
  | (key, nk) :: rest =>
      match target.getChild key with
      | none => target
      | some c => updateModules (target.addChild key (updateGo c nk)) rest
termination_by l => sizeOf l

end

/-- Source `ModuleCollection.update(rawRootModule)` (src/unnamed/part_000
lines 56-59). -/
def ModuleCollection.update (root : Module) (n : Raw) : Module :=
  updateGo root n

mutual

/-- Fully built subtree for a declaration: the new module with all its
declared descendants attached (what `register` produces for the subtree). -/
def buildModule : Raw → Bool → Module
  | raw@(.mk _ _ _ _ _ mods), rt => buildInto (mkModule raw rt) mods rt
termination_by raw _ => sizeOf raw

/-- Attach the built child for each declaration entry. -/
def buildInto (m : Module) : List (String × Raw) → Bool → Module
  | [], _ => m
  | (key, rawChild) :: rest, rt =>
      buildInto (m.addChild key (buildModule rawChild rt)) rest rt
termination_by l _ => sizeOf l

end

/-- Structural skeleton of a module tree: the materialised state and the
children map, recursively — exactly what claim C6 asserts `update` leaves
untouched. -/
inductive Skel where
  | node (stateV : Value) (children : List (String × Skel))

mutual

def skeleton : Module → Skel
  | .mk _ st _ _ _ _ cs => .node st (skeletonChildren cs)

def skeletonChildren : List (String × Module) → List (String × Skel)
  | [] => []
  | (k, m) :: rest => (k, skeleton m) :: skeletonChildren rest

end

/-!
## Store engine (src/src/mixin.js, concatenated store.js part)

The dispatch/commit engine.  A mutation registry entry is the wrapped
handler's effect on the global state given the payload (the wrapper invokes
the user handler with `(local.state, payload)` and the user handler mutates
state).  Subscribers are identified by tokens; `commit` emits an event trace
recording each handler invocation and each subscriber notification, which is
what the ordering claims are about.  Action registry entries are opaque
tokens: `dispatch` (lines 319-389) executes the bare statement `w;` before
any action subscriber or handler runs, which throws
`ReferenceError: w is not defined`, so no handler semantics is reachable.
-/

/-- The semantic content of one `wrappedMutationHandler`: old global state
and payload to new global state. -/
def MutHandler : Type := Value → Value → Value

/-- Observable events of a `commit` call. -/
inductive CEvent where
  /-- The `i`-th registered handler of the entry ran (`entry.forEach`). -/
  | run (i : Nat)
  /-- Subscriber `sub` was notified with the `{type, payload}` descriptor and
  the state it sees (`sub(mutation, this.state)`). -/
  | notify (sub : Nat) (type : Value) (payload : Value) (stateV : Value)

/-- Store state: the mutation registry, the action registry (opaque handler
tokens), the mutation subscriber list (tokens, in list order), the
`_committing` flag and the global state value. -/
structure StoreM where
  mutations : List (String × List MutHandler)
  actions : List (String × List Nat)
  subscribers : List Nat
  committing : Bool
  stateV : Value

/-- Source `Store._withCommit(fn)` (src/src/mixin.js lines 525-530): remember the
flag, set it, run `fn`, restore the remembered value.  The `α` component is
whatever `fn`'s body observes or produces. -/
def withCommit {α : Type} (s : StoreM) (fn : StoreM → StoreM × α) : StoreM × α :=
  let committing := s.committing
  let s1 := { s with committing := true }
  let (s2, a) := fn s1
  ({ s2 with committing := committing }, a)

/-- Source `unifyObjectStyle(type, payload, options)` (src/src/mixin.js lines
1088-1108), production build (the dev-only string assertion is skipped):
when `type` is a non-null object with a truthy `type` field, the object
itself becomes the payload and the positional payload becomes the options. -/
def unifyObjectStyle (type payload options : Value) : Value × Value × Value :=
  if isObject type && truthy (getField type ("type")) then
    (getField type ("type"), type, payload)
  else
    (type, payload, options)

/-- Registry lookup key: the registries are keyed by the namespaced type
strings under which handlers were registered; a non-string `type` coerces to
a property key that never collides with those, so it is modelled as a miss. -/
def typeKey : Value → Option String
  | .str s => some s
  | _ => none

/-- The loop `entry.forEach(commitIterator)`: run the handlers in registration order,
threading the global state and recording a `run` event per handler
(`i` numbers the handlers from `i0`). -/
def runEntry (stateV payload : Value) (i0 : Nat) :
    List MutHandler → Value × List CEvent
  | [] => (stateV, [])
  | h :: rest =>
      let s1 := h stateV payload
      let (s2, evs) := runEntry s1 payload (i0 + 1) rest
      (s2, .run i0 :: evs)

/-- Source `Store.commit(_type, _payload, _options)` (src/src/mixin.js lines
257-303): unify object style, look up the entry (missing entry: diagnostic
only, no effect), run every handler inside `_withCommit`, then notify the
subscribers (`slice()` — a copy with the same contents — in list order) with
the `{type, payload}` descriptor and the post-mutation `this.state`.
`options` is only read by a dev-only deprecation warning. -/
def commit (st : StoreM) (t p o : Value) : StoreM × List CEvent :=
  let u := unifyObjectStyle t p o
  let type := u.1
  let payload := u.2.1
  match typeKey type with
  | none => (st, [])
  | some ty =>
      match getAssoc st.mutations ty with
      | none => (st, [])
      | some entry =>
          let (st1, evs) := withCommit st fun s =>
            let r := runEntry s.stateV payload 0 entry
            ({ s with stateV := r.1 }, r.2)
          let nevs := st1.subscribers.map fun sub =>
            CEvent.notify sub type payload st1.stateV
          (st1, evs ++ nevs)

/-- What `Store.dispatch` can produce in the model. -/
inductive DispatchOut where
  /-- The early `return` (returning `undefined`) on an unknown action type. -/
  | undefinedRet
  deriving Repr, DecidableEq

/-- Source `Store.dispatch(_type, _payload)` (src/src/mixin.js lines 319-389):
unify object style, look up the entry (missing entry: diagnostic, return
`undefined`).  When an entry exists, the next statement executed is the bare
identifier `w;` (line 333), which is not defined anywhere, so the call
throws `ReferenceError: w is not defined` before the `before` subscribers,
the handlers, or the `Promise` aggregation are reached — all the code after
line 333 is unreachable when an entry exists. -/
def dispatch (st : StoreM) (t p : Value) : Except JsErr DispatchOut :=
  let u := unifyObjectStyle t p .undef
  let type := u.1
  match typeKey type with
  | none => .ok .undefinedRet
  | some ty =>
      match getAssoc st.actions ty with
      | none => .ok .undefinedRet
      | some _entry => .error .referenceErrorW

/-- The `commit` member of the local context built by
`makeLocalContext(store, namespace, path)` (src/src/mixin.js lines
800-891), production build (the dev-only unknown-local-type check is
skipped): with an empty namespace it is `store.commit` itself; otherwise it
unifies object style, prefixes the type with the namespace unless
`options.root` is truthy, and calls `store.commit(type, payload, options)`. -/
def localCommit (ns : String) (st : StoreM) (t p o : Value) :
    StoreM × List CEvent :=
  if ns = "" then commit st t p o
  else
    let args := unifyObjectStyle t p o
    let payload := args.2.1
    let options := args.2.2
    let type :=
      if truthy options && truthy (getField options ("root")) then args.1
      else .str (ns ++ jsToString args.1)
    commit st type payload options

/-!
### Subscriber registration (genericSubscribe / subscribe / subscribeAction)

Entries are compared by JS reference identity; tokens stand for object
identities.  `subscribe(fn)` stores the function itself; `subscribeAction`
stores `fn` when it is not a function, and otherwise stores a freshly
allocated wrapper object `{ before: fn }` — a new identity on every call.
-/

/-- An element of a subscriber list. -/
inductive SubEntry where
  /-- A function (or non-function subscriber object passed through as-is),
  identified by its reference token. -/
  | fnRef (fid : Nat)
  /-- A wrapper object `{ before: fn }` created by `subscribeAction`; `oid`
  is the wrapper's own fresh identity, `beforeFid` the wrapped function. -/
  | actObj (oid : Nat) (beforeFid : Nat)
  deriving Repr, DecidableEq

/-- The splice performed by the returned unsubscribe function:
`indexOf` then `splice(i, 1)` — remove the first occurrence, if any. -/
def removeFirst : List SubEntry → SubEntry → List SubEntry
  | [], _ => []
  | x :: xs, e => if x = e then xs else x :: removeFirst xs e

/-- Source `genericSubscribe(fn, subs, options)` (src/src/mixin.js lines 537-551):
add `fn` unless it is already present — prepended when `options.prepend` is
truthy, appended otherwise.  (The returned unsubscribe closure is
`removeFirst · fn` applied to the list current at call time.) -/
def genericSubscribe (e : SubEntry) (subs : List SubEntry) (prepend : Bool) :
    List SubEntry :=
  if subs.contains e then subs
  else if prepend then e :: subs else subs ++ [e]

/-- The argument passed to `subscribeAction`. -/
inductive SubArg where
  /-- A function. -/
  | fn (fid : Nat)
  /-- Anything that is not a function (an options object with
  `before`/`after`/`error` members), passed through unchanged. -/
  | obj (e : SubEntry)

/-- The wrapper `const subs = typeof fn === "function" ? \x7b before: fn \x7d : fn` —
`fresh` is the identity of the newly allocated wrapper object. -/
def subscribeActionEntry (a : SubArg) (fresh : Nat) : SubEntry :=
  match a with
  | .fn fid => .actObj fresh fid
  | .obj e => e

/-- Source `Store.subscribeAction(fn, options)` (src/src/mixin.js lines 394-405). -/
def subscribeAction (a : SubArg) (fresh : Nat) (subs : List SubEntry)
    (prepend : Bool) : List SubEntry :=
  genericSubscribe (subscribeActionEntry a fresh) subs prepend

/-- How many stored entries deliver notifications to function `fid`
(either registered directly or wrapped in an action-subscriber object). -/
def countFor (fid : Nat) : List SubEntry → Nat
  | [] => 0
  | .fnRef f :: rest => (if f = fid then 1 else 0) + countFor fid rest
  | .actObj _ f :: rest => (if f = fid then 1 else 0) + countFor fid rest

/-- The namespace string as claim C3 states it: walk the path root-to-node
and concatenate `key + "/"` for exactly those nodes whose own `namespaced`
flag is true.  Written from the claim's words (a refinement target), to be
compared with `ModuleCollection.getNamespace`. -/
def claimNamespace : Module → List String → String
  | _, [] => ""
  | m, k :: rest =>
      match m.getChild k with
      | none => ""
      | some c => (if c.namespaced then k ++ "/" else "") ++ claimNamespace c rest

/-!
## Lemmas: association lists
-/

theorem removeAssoc_cons {α : Type} (k : String) (w : α) (rest : List (String × α))
    (key : String) :
    removeAssoc ((k, w) :: rest) key =
      if k = key then removeAssoc rest key else (k, w) :: removeAssoc rest key := by
  by_cases h : k = key <;> simp [removeAssoc, List.filter_cons, h]

@[simp] theorem getAssoc_nil {α : Type} (key : String) :
    getAssoc ([] : List (String × α)) key = none := rfl

@[simp] theorem getAssoc_cons {α : Type} (k : String) (v : α) (rest : List (String × α))
    (key : String) :
    getAssoc ((k, v) :: rest) key = if k = key then some v else getAssoc rest key := rfl

theorem getAssoc_setAssoc_self {α : Type} (l : List (String × α)) (key : String) (v : α) :
    getAssoc (setAssoc l key v) key = some v := by
  induction l with
  | nil => simp [setAssoc]
  | cons p rest ih =>
      obtain ⟨k, w⟩ := p
      by_cases h : k = key <;> simp [setAssoc, h, ih]

theorem getAssoc_setAssoc_ne {α : Type} (l : List (String × α)) (key key' : String) (v : α)
    (h : key ≠ key') :
    getAssoc (setAssoc l key v) key' = getAssoc l key' := by
  induction l with
  | nil => simp [setAssoc, h]
  | cons p rest ih =>
      obtain ⟨k, w⟩ := p
      by_cases hk : k = key
      · subst hk; simp [setAssoc, h]
      · simp only [setAssoc, if_neg hk, getAssoc_cons, ih]

theorem setAssoc_setAssoc_self {α : Type} (l : List (String × α)) (key : String) (v w : α) :
    setAssoc (setAssoc l key v) key w = setAssoc l key w := by
  induction l with
  | nil => simp [setAssoc]
  | cons p rest ih =>
      obtain ⟨k, u⟩ := p
      by_cases h : k = key <;> simp [setAssoc, h, ih]

theorem setAssoc_of_getAssoc {α : Type} (l : List (String × α)) (key : String) (v : α)
    (h : getAssoc l key = some v) :
    setAssoc l key v = l := by
  induction l with
  | nil => simp at h
  | cons p rest ih =>
      obtain ⟨k, u⟩ := p
      by_cases hk : k = key
      · subst hk
        simp at h
        simp [setAssoc, h]
      · simp [hk] at h
        simp [setAssoc, hk, ih h]

theorem getAssoc_removeAssoc_self {α : Type} (l : List (String × α)) (key : String) :
    getAssoc (removeAssoc l key) key = none := by
  induction l with
  | nil => rfl
  | cons p rest ih =>
      obtain ⟨k, w⟩ := p
      rw [removeAssoc_cons]
      by_cases h : k = key <;> simp [h, ih]

theorem getAssoc_removeAssoc_ne {α : Type} (l : List (String × α)) (key key' : String)
    (h : key ≠ key') :
    getAssoc (removeAssoc l key) key' = getAssoc l key' := by
  induction l with
  | nil => rfl
  | cons p rest ih =>
      obtain ⟨k, w⟩ := p
      rw [removeAssoc_cons]
      by_cases hk : k = key
      · subst hk
        simp [h, ih]
      · simp [hk, ih]

theorem keysOf_setAssoc_mem {α : Type} (l : List (String × α)) (key : String) (v : α)
    (h : getAssoc l key ≠ none) :
    keysOf (setAssoc l key v) = keysOf l := by
  induction l with
  | nil => simp [getAssoc] at h
  | cons p rest ih =>
      obtain ⟨k, w⟩ := p
      by_cases hk : k = key
      · subst hk; simp [setAssoc, keysOf]
      · simp only [getAssoc_cons, if_neg hk] at h
        simp [setAssoc, hk, keysOf] at ih ⊢
        exact ih h

/-!
## Lemmas: Module accessors
-/

@[simp] theorem Module.children_addChild (m : Module) (key : String) (c : Module) :
    (m.addChild key c).children = setAssoc m.children key c := by
  cases m; rfl

@[simp] theorem Module.children_removeChild (m : Module) (key : String) :
    (m.removeChild key).children = removeAssoc m.children key := by
  cases m; rfl

@[simp] theorem Module.runtime_addChild (m : Module) (key : String) (c : Module) :
    (m.addChild key c).runtime = m.runtime := by
  cases m; rfl

@[simp] theorem Module.getChild_addChild_self (m : Module) (key : String) (c : Module) :
    (m.addChild key c).getChild key = some c := by
  simp [Module.getChild, getAssoc_setAssoc_self]

theorem Module.getChild_addChild_ne (m : Module) (key key' : String) (c : Module)
    (h : key ≠ key') :
    (m.addChild key c).getChild key' = m.getChild key' := by
  simp [Module.getChild, getAssoc_setAssoc_ne _ _ _ _ h]

theorem Module.addChild_addChild_self (m : Module) (key : String) (c c' : Module) :
    (m.addChild key c).addChild key c' = m.addChild key c' := by
  cases m; simp [Module.addChild, Module.withChildren, Module.children, setAssoc_setAssoc_self]

theorem Module.hasChild_addChild (m : Module) (key key' : String) (c : Module)
    (hmem : m.getChild key ≠ none) :
    (m.addChild key c).hasChild key' = m.hasChild key' := by
  by_cases h : key = key'
  · subst h
    have h2 : (getAssoc m.children key).isSome = true :=
      Option.ne_none_iff_isSome.mp hmem
    simp [Module.hasChild, Module.getChild, getAssoc_setAssoc_self, h2]
  · simp [Module.hasChild, Module.getChild, getAssoc_setAssoc_ne _ _ _ _ h]

/-!
## Claim C8: the committing flag is a reentrant toggle
-/

/-- C8 (confirmed): `_withCommit(fn)` runs `fn` with `_committing` set to
`true` and afterwards restores `_committing` to exactly the value it had
before the call; hence a nested `_withCommit` scope exiting inside an outer
one leaves the flag `true` for the rest of the outer scope. -/
theorem claim_C8 :
    (∀ (α : Type) (s : StoreM) (fn : StoreM → StoreM × α),
       (withCommit s fn).1.committing = s.committing) ∧
    (∀ (s : StoreM),
       (withCommit s (fun s1 => (s1, s1.committing))).2 = true) ∧
    (∀ (α : Type) (s : StoreM) (g : StoreM → StoreM × α),
       (withCommit s (fun s1 =>
          let r := withCommit s1 g
          (r.1, r.1.committing))).2 = true) := by
  refine ⟨?_, ?_, ?_⟩
  · intro α s fn
    show (withCommit s fn).1.committing = s.committing
    unfold withCommit
    rcases fn { s with committing := true } with ⟨s2, a⟩
    rfl
  · intro s; rfl
  · intro α s g
    show (withCommit s (fun s1 =>
        ((withCommit s1 g).1, (withCommit s1 g).1.committing))).2 = true
    unfold withCommit
    rcases g { s with committing := true } with ⟨s2, a⟩
    rfl

/-!
## Claim C7: subscriber registration (corrected)
-/

theorem removeFirst_of_not_mem (l : List SubEntry) (e : SubEntry) (h : e ∉ l) :
    removeFirst l e = l := by
  induction l with
  | nil => rfl
  | cons x xs ih =>
      simp only [List.mem_cons, not_or] at h
      simp [removeFirst, Ne.symm h.1, ih h.2]

theorem not_mem_removeFirst (l : List SubEntry) (e : SubEntry) (h : l.Nodup) :
    e ∉ removeFirst l e := by
  induction l with
  | nil => simp [removeFirst]
  | cons x xs ih =>
      rw [List.nodup_cons] at h
      by_cases hx : x = e
      · subst hx
        simpa [removeFirst] using h.1
      · simp only [removeFirst, if_neg hx, List.mem_cons, not_or]
        exact ⟨fun hh => hx hh.symm, ih h.2⟩

theorem mem_removeFirst_of_ne (l : List SubEntry) (e x : SubEntry) (h : x ≠ e) :
    x ∈ removeFirst l e ↔ x ∈ l := by
  induction l with
  | nil => simp [removeFirst]
  | cons y ys ih =>
      by_cases hy : y = e
      · subst hy
        simp [removeFirst, h]
      · simp [removeFirst, hy, ih]

/-- C5-style closed counterexample for C7: `subscribeAction` wraps a bare
function in a fresh `{ before: fn }` object on every call, so the
`indexOf`-based duplicate guard never fires for functions — subscribing the
identical function reference (token `0`) twice stores two separate entries,
both of which deliver notifications to that function.  This refutes the
claim's "never adds a second entry when the identical function reference is
already registered" for the action subscriber list. -/
theorem claim_C7_counterexample :
    subscribeAction (.fn 0) 11 (subscribeAction (.fn 0) 10 [] false) false
      = [.actObj 10 0, .actObj 11 0] ∧
    countFor 0 (subscribeAction (.fn 0) 11 (subscribeAction (.fn 0) 10 [] false) false)
      = 2 := by
  constructor <;> rfl

/-- C7 (corrected): `genericSubscribe` deduplicates, appends/prepends and
unsubscribes by the *stored entry's* identity — for `subscribe` that is the
function itself, so an already-registered identical function is never added
twice; but `subscribeAction` stores a freshly allocated `{ before: fn }`
wrapper for a bare function, so only an identical subscriber *object* is
deduplicated and the same function passed twice is registered twice. -/
theorem claim_C7 :
    (∀ (e : SubEntry) (subs : List SubEntry) (prepend : Bool),
       (e ∈ subs → genericSubscribe e subs prepend = subs) ∧
       (e ∉ subs →
          genericSubscribe e subs prepend =
            if prepend then e :: subs else subs ++ [e]) ∧
       (subs.Nodup → e ∉ removeFirst (genericSubscribe e subs prepend) e) ∧
       (∀ x, x ≠ e →
          (x ∈ removeFirst (genericSubscribe e subs prepend) e ↔
           x ∈ genericSubscribe e subs prepend))) ∧
    (∀ (fid fresh : Nat) (subs : List SubEntry) (prepend : Bool),
       SubEntry.actObj fresh fid ∉ subs →
       subscribeAction (.fn fid) fresh subs prepend =
         if prepend then SubEntry.actObj fresh fid :: subs
         else subs ++ [SubEntry.actObj fresh fid]) := by
  constructor
  · intro e subs prepend
    refine ⟨?_, ?_, ?_, ?_⟩
    · intro h
      simp [genericSubscribe, h]
    · intro h
      simp [genericSubscribe, h]
    · intro hnd
      by_cases h : e ∈ subs
      · have hg : genericSubscribe e subs prepend = subs := by
          simp [genericSubscribe, h]
        rw [hg]
        exact not_mem_removeFirst subs e hnd
      · have hg : genericSubscribe e subs prepend =
            if prepend then e :: subs else subs ++ [e] := by
          simp [genericSubscribe, h]
        rw [hg]
        have hnd' : (if prepend then e :: subs else subs ++ [e]).Nodup := by
          cases prepend <;> simp [hnd, h, List.nodup_append]
        exact not_mem_removeFirst _ e hnd'
    · intro x hx
      exact mem_removeFirst_of_ne _ e x hx
  · intro fid fresh subs prepend h
    simp [subscribeAction, subscribeActionEntry, genericSubscribe, h]

/-- Witness for C7: the theorem applied at concrete inputs — a function
already stored by `subscribe` is not re-added, while `subscribeAction`
re-adds a fresh wrapper for an already-wrapped function. -/
theorem claim_C7_witness :
    genericSubscribe (.fnRef 0) [.fnRef 0] false = [.fnRef 0] ∧
    subscribeAction (.fn 0) 11 [.actObj 10 0] false
      = [.actObj 10 0, .actObj 11 0] := by
  constructor
  · exact (claim_C7.1 (.fnRef 0) [.fnRef 0] false).1 (by decide)
  · exact claim_C7.2 0 11 [.actObj 10 0] false (by decide)

/-!
## Claim C1: dispatch aggregation (code bug — the stray statement `w;`)
-/

/-- C1 (code bug): with one action handler registered under `"inc"`,
`dispatch("inc", null)` does not return an awaitable at all — the bare
statement `w;` (src/src/mixin.js line 333), reached exactly when the entry
exists, throws `ReferenceError: w is not defined` before any subscriber or
handler runs.  The claim describes the intended `Promise.all` aggregation
that the surrounding comments document; the stray statement makes it
unreachable. -/
theorem claim_C1 :
    getAssoc (StoreM.mk [] [("inc", [0])] [] false .null).actions ("inc") = some [0] ∧
    dispatch (StoreM.mk [] [("inc", [0])] [] false .null) (.str ("inc")) .null
      = .error .referenceErrorW := by
  constructor <;> rfl

/-!
## Claim C5: missing-segment behaviour of ModuleCollection.get (corrected)
-/

/-- Counterexample for C5: on a root with no children the path `["a","b"]`
has a missing segment (`pathGet` is `none`), yet `ModuleCollection.get`
does not return `undefined` — the reduce calls `.getChild` on the
`undefined` accumulator and throws a `TypeError`. -/
theorem claim_C5_counterexample :
    pathGet (Module.mk false (.obj []) false .undef .undef .undef []) ["a", "b"]
      = none ∧
    ModuleCollection.get (Module.mk false (.obj []) false .undef .undef .undef [])
      ["a", "b"] = .error .typeError := by
  constructor <;> rfl

/-!
## Lemmas: path walks
-/

theorem mcGetGo_append (q : List String) :
    ∀ (m m' : Module) (r : List String), pathGet m q = some m' →
      mcGetGo (some m) (q ++ r) = mcGetGo (some m') r := by
  induction q with
  | nil =>
      intro m m' r h
      simp [pathGet] at h
      subst h
      rfl
  | cons k qs ih =>
      intro m m' r h
      rw [pathGet] at h
      cases hc : m.getChild k with
      | none => rw [hc] at h; exact absurd h (by simp)
      | some c =>
          rw [hc] at h
          show mcGetGo (m.getChild k) (qs ++ r) = mcGetGo (some m') r
          rw [hc]
          exact ih c m' r h

theorem mcGet_of_pathGet (root : Module) (q : List String) (m : Module)
    (h : pathGet root q = some m) :
    ModuleCollection.get root q = .ok (some m) := by
  have := mcGetGo_append q root m [] h
  simpa [ModuleCollection.get, mcGetGo] using this

theorem dropLast_append_getLastD (p : List String) (h : p ≠ []) :
    p.dropLast ++ [p.getLastD ("")] = p := by
  induction p with
  | nil => exact absurd rfl h
  | cons x xs ih =>
      cases xs with
      | nil => rfl
      | cons y ys =>
          have h2 := ih (by simp)
          simpa [List.dropLast] using h2

/-!
## Claim C5 (amended): where ModuleCollection.get is non-throwing
-/

/-- C5 (corrected): `ModuleCollection.get(p)` returns `undefined` without
throwing exactly when the *final* segment is the missing one (every earlier
segment resolves); when a non-final segment is missing, the `reduce` calls
`.getChild` on an `undefined` accumulator and throws a `TypeError` instead
of returning `undefined`. -/
theorem claim_C5 :
    (∀ (root : Module) (p : List String) (parent : Module),
       p ≠ [] →
       pathGet root p.dropLast = some parent →
       parent.getChild (p.getLastD ("")) = none →
       ModuleCollection.get root p = .ok none) ∧
    (∀ (root : Module) (q : List String) (m : Module) (k : String)
       (rest : List String),
       pathGet root q = some m →
       m.getChild k = none →
       rest ≠ [] →
       ModuleCollection.get root (q ++ k :: rest) = .error .typeError) := by
  constructor
  · intro root p parent hne hp hmiss
    have hsplit := dropLast_append_getLastD p hne
    calc ModuleCollection.get root p
        = mcGetGo (some root) (p.dropLast ++ [p.getLastD ("")]) := by
          rw [hsplit]; rfl
      _ = mcGetGo (some parent) [p.getLastD ("")] := mcGetGo_append _ root parent _ hp
      _ = .ok none := by
          show mcGetGo (parent.getChild (p.getLastD (""))) [] = _
          rw [hmiss]
          rfl
  · intro root q m k rest hq hmiss hrest
    have h1 : ModuleCollection.get root (q ++ k :: rest)
        = mcGetGo (some m) (k :: rest) := mcGetGo_append q root m (k :: rest) hq
    rw [h1]
    show mcGetGo (m.getChild k) rest = _
    rw [hmiss]
    cases rest with
    | nil => exact absurd rfl hrest
    | cons r rs => rfl

/-- Witness for C5: on a root whose only child is `"a"` (itself childless),
`get(["b"])` returns `undefined` without throwing (missing segment is
final), while `get(["a","x","y"])` throws (missing segment is not final). -/
theorem claim_C5_witness :
    ModuleCollection.get
      (Module.mk false (.obj []) false .undef .undef .undef
        [("a", Module.mk false (.obj []) false .undef .undef .undef [])])
      ["b"] = .ok none ∧
    ModuleCollection.get
      (Module.mk false (.obj []) false .undef .undef .undef
        [("a", Module.mk false (.obj []) false .undef .undef .undef [])])
      ["a", "x", "y"] = .error .typeError := by
  constructor
  · exact claim_C5.1 _ ["b"] _ (by simp) rfl (by rfl)
  · exact claim_C5.2 _ ["a"]
      (Module.mk false (.obj []) false .undef .undef .undef []) "x" ["y"]
      (by rfl) (by rfl) (by simp)

/-!
## Claim C3: namespace concatenation
-/

theorem getNamespaceGo_eq (p : List String) :
    ∀ (m tail : Module) (acc : String), pathGet m p = some tail →
      getNamespaceGo m acc p = .ok (acc ++ claimNamespace m p) := by
  induction p with
  | nil =>
      intro m tail acc _
      simp [getNamespaceGo, claimNamespace]
  | cons k rest ih =>
      intro m tail acc h
      rw [pathGet] at h
      cases hc : m.getChild k with
      | none => rw [hc] at h; exact absurd h (by simp)
      | some c =>
          rw [hc] at h
          simp only [getNamespaceGo, claimNamespace, hc]
          rw [ih c tail _ h, String.append_assoc]

/-- C3 (confirmed): for a path whose segments all resolve,
`ModuleCollection.getNamespace` returns exactly the root-to-node
concatenation of `key + "/"` over the nodes whose own `namespaced` flag is
true — a non-namespaced node contributes nothing, regardless of its
ancestors' flags. -/
theorem claim_C3 (root : Module) (p : List String) (tail : Module)
    (h : pathGet root p = some tail) :
    ModuleCollection.getNamespace root p = .ok (claimNamespace root p) := by
  have := getNamespaceGo_eq p root tail ("") h
  simpa [ModuleCollection.getNamespace] using this

/-- Witness for C3: `a` namespaced, `b` not, `c` namespaced — the namespace
of `["a","b","c"]` is `"a/c/"`: only namespaced nodes contribute their own
key. -/
theorem claim_C3_witness :
    ModuleCollection.getNamespace
      (Module.mk false (.obj []) false .undef .undef .undef
        [("a", Module.mk false (.obj []) true .undef .undef .undef
          [("b", Module.mk false (.obj []) false .undef .undef .undef
            [("c", Module.mk false (.obj []) true .undef .undef .undef [])])])])
      ["a", "b", "c"] = .ok ("a/c/") := by
  exact claim_C3 _ ["a", "b", "c"]
    (Module.mk false (.obj []) true .undef .undef .undef []) rfl

/-!
## Claim C2: commit ordering
-/

theorem runEntry_fst (entry : List MutHandler) :
    ∀ (s p : Value) (i : Nat),
      (runEntry s p i entry).1 = entry.foldl (fun acc h => h acc p) s := by
  induction entry with
  | nil => intro s p i; rfl
  | cons h rest ih =>
      intro s p i
      simp [runEntry, ih]

theorem runEntry_snd (entry : List MutHandler) :
    ∀ (s p : Value) (i : Nat),
      (runEntry s p i entry).2 = (List.range' i entry.length).map CEvent.run := by
  induction entry with
  | nil => intro s p i; rfl
  | cons h rest ih =>
      intro s p i
      simp [runEntry, ih, List.range']

/-- Shared reduction of `commit` on a store that has an entry for the
unified type. -/
theorem commit_run (st : StoreM) (t p o : Value) (ty : String) (pl op : Value)
    (hu : unifyObjectStyle t p o = (.str ty, pl, op))
    (entry : List MutHandler)
    (hent : getAssoc st.mutations ty = some entry) :
    commit st t p o =
      ({ st with stateV := entry.foldl (fun s h => h s pl) st.stateV },
       (List.range entry.length).map CEvent.run ++
         st.subscribers.map fun sub =>
           CEvent.notify sub (.str ty) pl
             (entry.foldl (fun s h => h s pl) st.stateV)) := by
  obtain ⟨muts, acts, subs, comm, sv⟩ := st
  simp only [StoreM.mutations] at hent
  unfold commit
  rw [hu]
  simp only [typeKey, StoreM.mutations, hent, withCommit]
  simp [runEntry_fst, runEntry_snd, List.range_eq_range']

/-- C2 (confirmed): `commit(t, p)` with at least one registered handler runs
every handler of the entry, in registration order, to completion (the state
is the left fold of all handlers) before any subscriber event, and then
notifies the subscribers in list order with the `{type, payload}` descriptor
and the post-mutation global state. -/
theorem claim_C2 (st : StoreM) (t : String) (p : Value) (entry : List MutHandler)
    (hent : getAssoc st.mutations t = some entry) (hne : entry ≠ []) :
    commit st (.str t) p .undef =
      ({ st with stateV := entry.foldl (fun s h => h s p) st.stateV },
       (List.range entry.length).map CEvent.run ++
         st.subscribers.map fun sub =>
           CEvent.notify sub (.str t) p
             (entry.foldl (fun s h => h s p) st.stateV)) :=
  commit_run st (.str t) p .undef t p .undef rfl entry hent

/-- Witness for C2: two handlers registered under `"m"` and two subscribers
(`5`, `7`): both handlers run, in order, before either notification, and
both subscribers see the post-mutation state. -/
theorem claim_C2_witness :
    commit (StoreM.mk [("m", [fun _ _ => .num 1, fun s _ => .list [s]])] [] [5, 7]
        false (.num 0)) (.str ("m")) (.num 9) .undef =
      (StoreM.mk [("m", [fun _ _ => .num 1, fun s _ => .list [s]])] [] [5, 7]
        false (.list [.num 1]),
       [.run 0, .run 1,
        .notify 5 (.str ("m")) (.num 9) (.list [.num 1]),
        .notify 7 (.str ("m")) (.num 9) (.list [.num 1])]) := by
  exact claim_C2 _ ("m") (.num 9) [fun _ _ => .num 1, fun s _ => .list [s]] rfl (by simp)

/-!
## Claim C9: local context commit addressing
-/

/-- C9 (confirmed): for the local context of a module with namespace
`"user/"`, `local.commit("setName", v)` is the very same call as
`store.commit("user/setName", v)` (same handlers, same payload, same
subscriber notifications — the results are equal as state and event trace);
and with `{root: true}` options the type is passed through un-prefixed. -/
theorem claim_C9 (st : StoreM) (v o : Value) (entry : List MutHandler)
    (hent : getAssoc st.mutations ("user/setName") = some entry)
    (hroot : truthy o = true)
    (hropt : truthy (getField o ("root")) = true) :
    localCommit ("user/") st (.str ("setName")) v .undef =
      commit st (.str ("user/setName")) v .undef ∧
    localCommit ("user/") st (.str ("setName")) v o =
      commit st (.str ("setName")) v o := by
  constructor
  · rfl
  · show localCommit ("user/") st (.str ("setName")) v o = _
    unfold localCommit
    simp [unifyObjectStyle, isObject, hroot, hropt]

/-- Witness for C9, at a concrete store with a `"user/setName"` mutation and
options `{root: true}`. -/
theorem claim_C9_witness :
    localCommit ("user/") (StoreM.mk [("user/setName", [fun _ p => p])] [] [3]
        false .null) (.str ("setName")) (.num 2) .undef =
      commit (StoreM.mk [("user/setName", [fun _ p => p])] [] [3] false .null)
        (.str ("user/setName")) (.num 2) .undef ∧
    localCommit ("user/") (StoreM.mk [("user/setName", [fun _ p => p])] [] [3]
        false .null) (.str ("setName")) (.num 2) (.obj [("root", .bool true)]) =
      commit (StoreM.mk [("user/setName", [fun _ p => p])] [] [3] false .null)
        (.str ("setName")) (.num 2) (.obj [("root", .bool true)]) := by
  exact claim_C9 _ (.num 2) (.obj [("root", .bool true)]) [fun _ p => p] rfl rfl rfl

/-!
## Claim C10: object-style invocation (code bug on the dispatch half)
-/

/-- C10 (code bug on the dispatch half): for `commit(obj, opts)` with a
non-empty string `obj.type`, the *entire* object is what every handler is
applied to and what every subscriber descriptor carries (the type key is not
stripped), and the second positional argument is re-interpreted as the
options; `dispatch(obj)` normalizes the same way, but with a registered
handler under `obj.type` the stray statement `w;` throws
`ReferenceError: w is not defined` before any handler or subscriber can see
the payload — shown at the concrete failing input. -/
theorem claim_C10 :
    (∀ (st : StoreM) (fields : List (String × Value)) (opts : Value)
       (ty : String) (entry : List MutHandler),
       getAssoc fields ("type") = some (.str ty) →
       ty ≠ "" →
       getAssoc st.mutations ty = some entry →
       unifyObjectStyle (.obj fields) opts .undef = (.str ty, .obj fields, opts) ∧
       commit st (.obj fields) opts .undef =
         ({ st with stateV := entry.foldl (fun s h => h s (.obj fields)) st.stateV },
          (List.range entry.length).map CEvent.run ++
            st.subscribers.map fun sub =>
              CEvent.notify sub (.str ty) (.obj fields)
                (entry.foldl (fun s h => h s (.obj fields)) st.stateV))) ∧
    dispatch (StoreM.mk [] [("a", [0])] [] false .null)
      (.obj [("type", .str ("a")), ("k", .num 1)]) .undef
      = .error .referenceErrorW := by
  constructor
  · intro st fields opts ty entry hty htyne hent
    have hu : unifyObjectStyle (.obj fields) opts .undef
        = (.str ty, .obj fields, opts) := by
      unfold unifyObjectStyle
      have hfield : getField (.obj fields) "type" = .str ty := by
        simp [getField, hty]
      rw [hfield]
      simp [isObject, truthy, htyne]
    exact ⟨hu, commit_run st (.obj fields) opts .undef ty (.obj fields) opts hu entry hent⟩
  · rfl

/-- Witness for C10's commit half at a concrete store: the handler is
applied to the whole `{type: "a", k: 1}` object, and so is the subscriber
descriptor. -/
theorem claim_C10_witness :
    unifyObjectStyle (.obj [("type", .str ("a")), ("k", .num 1)]) .null .undef
      = (.str ("a"), .obj [("type", .str ("a")), ("k", .num 1)], .null) ∧
    commit (StoreM.mk [("a", [fun _ p => p])] [] [4] false (.num 0))
      (.obj [("type", .str ("a")), ("k", .num 1)]) .null .undef =
      (StoreM.mk [("a", [fun _ p => p])] [] [4] false
        (.obj [("type", .str ("a")), ("k", .num 1)]),
       [.run 0,
        .notify 4 (.str ("a")) (.obj [("type", .str ("a")), ("k", .num 1)])
          (.obj [("type", .str ("a")), ("k", .num 1)])]) := by
  exact claim_C10.1 _ [("type", .str ("a")), ("k", .num 1)] .null ("a")
    [fun _ p => p] rfl (by simp) rfl

/-!
## Lemmas: modifyAt / pathGet calculus (for C4)
-/

theorem Module.addChild_of_getChild (m : Module) (key : String) (c : Module)
    (h : m.getChild key = some c) :
    m.addChild key c = m := by
  cases m with
  | mk rt st ns g mu ac cs =>
      simp only [Module.getChild, Module.children] at h
      simp [Module.addChild, Module.withChildren, Module.children,
        setAssoc_of_getAssoc cs key c h]

theorem pathGet_append (p : List String) :
    ∀ (root : Module) (q : List String),
      pathGet root (p ++ q) = (pathGet root p).bind fun m => pathGet m q := by
  induction p with
  | nil => intro root q; rfl
  | cons k rest ih =>
      intro root q
      show (match root.getChild k with
        | none => none
        | some c => pathGet c (rest ++ q)) = _
      cases hc : root.getChild k with
      | none => simp [pathGet, hc]
      | some c => simp [pathGet, hc, ih]

theorem modifyAt_spec (p : List String) :
    ∀ (root m : Module) (f : Module → Module), pathGet root p = some m →
      ∃ r, modifyAt root p f = some r ∧ pathGet r p = some (f m) := by
  induction p with
  | nil =>
      intro root m f h
      simp [pathGet] at h
      subst h
      exact ⟨f root, rfl, rfl⟩
  | cons k rest ih =>
      intro root m f h
      rw [pathGet] at h
      cases hc : root.getChild k with
      | none => rw [hc] at h; exact absurd h (by simp)
      | some c =>
          rw [hc] at h
          obtain ⟨c', hc', hp'⟩ := ih c m f h
          refine ⟨root.addChild k c', ?_, ?_⟩
          · simp [modifyAt, hc, hc']
          · simp [pathGet, Module.getChild_addChild_self, hp']

theorem modifyAt_id (p : List String) :
    ∀ (root m : Module), pathGet root p = some m →
      modifyAt root p (fun x => x) = some root := by
  induction p with
  | nil => intro root m _; rfl
  | cons k rest ih =>
      intro root m h
      rw [pathGet] at h
      cases hc : root.getChild k with
      | none => rw [hc] at h; exact absurd h (by simp)
      | some c =>
          rw [hc] at h
          simp [modifyAt, hc, ih c m h, Module.addChild_of_getChild root k c hc]

theorem modifyAt_modifyAt (p : List String) :
    ∀ (root m r : Module) (f g : Module → Module), pathGet root p = some m →
      modifyAt root p f = some r →
      modifyAt r p g = modifyAt root p (fun x => g (f x)) := by
  induction p with
  | nil =>
      intro root m r f g h hr
      simp [pathGet] at h
      subst h
      simp [modifyAt] at hr
      subst hr
      rfl
  | cons k rest ih =>
      intro root m r f g h hr
      rw [pathGet] at h
      cases hc : root.getChild k with
      | none => rw [hc] at h; exact absurd h (by simp)
      | some c =>
          rw [hc] at h
          simp only [modifyAt, hc] at hr
          cases hc' : modifyAt c rest f with
          | none => rw [hc'] at hr; simp at hr
          | some c' =>
              rw [hc'] at hr
              have hr2 : root.addChild k c' = r := by simpa using hr
              subst hr2
              simp only [modifyAt, Module.getChild_addChild_self, hc,
                ih c m c' f g h hc']
              cases hcc : modifyAt c rest fun x => g (f x) with
              | none => rfl
              | some c'' =>
                  simp [Module.addChild_addChild_self]

theorem graft_then_modify (pre : List String) :
    ∀ (root m r1 : Module) (key : String) (c : Module) (g : Module → Module),
      pathGet root pre = some m →
      modifyAt root pre (fun x => x.addChild key c) = some r1 →
      modifyAt r1 (pre ++ [key]) g =
        modifyAt root pre (fun x => x.addChild key (g c)) := by
  induction pre with
  | nil =>
      intro root m r1 key c g h hr
      simp [modifyAt] at hr
      subst hr
      simp [modifyAt, Module.getChild_addChild_self, Module.addChild_addChild_self]
  | cons k rest ih =>
      intro root m r1 key c g h hr
      rw [pathGet] at h
      cases hc : root.getChild k with
      | none => rw [hc] at h; exact absurd h (by simp)
      | some ck =>
          rw [hc] at h
          simp only [modifyAt, hc] at hr
          cases hc' : modifyAt ck rest (fun x => x.addChild key c) with
          | none => rw [hc'] at hr; simp at hr
          | some ck' =>
              rw [hc'] at hr
              have hr2 : root.addChild k ck' = r1 := by simpa using hr
              subst hr2
              show modifyAt (root.addChild k ck') (k :: (rest ++ [key])) g = _
              simp only [modifyAt, Module.getChild_addChild_self, hc,
                ih ck m ck' key c g h hc']
              cases hcc : modifyAt ck rest fun x => x.addChild key (g c) with
              | none => rfl
              | some y => simp [Module.addChild_addChild_self]

theorem runtime_buildInto (list : List (String × Raw)) :
    ∀ (m : Module) (rt : Bool), (buildInto m list rt).runtime = m.runtime := by
  induction list with
  | nil => intro m rt; rw [buildInto]
  | cons p rest ih =>
      obtain ⟨key, rc⟩ := p
      intro m rt
      rw [buildInto, ih, Module.runtime_addChild]

theorem runtime_buildModule (raw : Raw) (rt : Bool) :
    (buildModule raw rt).runtime = rt := by
  obtain ⟨ns, sti, g, mu, ac, mods⟩ := raw
  rw [buildModule, runtime_buildInto]
  rfl

/-- The two mutually recursive halves of the `register = graft a fully
built subtree` equivalence, proved by strong induction on size. -/
theorem register_eq_aux : ∀ (fuel : Nat),
    (∀ (raw : Raw), sizeOf raw ≤ fuel → ∀ (root : Module) (pre : List String)
       (key : String) (rt : Bool) (m : Module), pathGet root pre = some m →
       ModuleCollection.register root (pre ++ [key]) raw rt =
         modifyAt root pre (fun par => par.addChild key (buildModule raw rt))) ∧
    (∀ (list : List (String × Raw)), sizeOf list ≤ fuel → ∀ (root : Module)
       (q : List String) (rt : Bool) (mq : Module), pathGet root q = some mq →
       registerModules root q list rt =
         modifyAt root q (fun par => buildInto par list rt)) := by
  intro fuel
  induction fuel with
  | zero =>
      constructor
      · intro raw hsz
        obtain ⟨ns, sti, g, mu, ac, mods⟩ := raw
        simp only [Raw.mk.sizeOf_spec] at hsz
        omega
      · intro list hsz
        cases list with
        | nil =>
            simp only [List.nil.sizeOf_spec] at hsz
            omega
        | cons p rest =>
            simp only [List.cons.sizeOf_spec] at hsz
            omega
  | succ fuel ih =>
      constructor
      · intro raw hsz root pre key rt m hm
        obtain ⟨ns, sti, g, mu, ac, mods⟩ := raw
        have hmods : sizeOf mods ≤ fuel := by simp at hsz; omega
        obtain ⟨r1, hr1, hp1⟩ := modifyAt_spec pre root m
          (fun par => par.addChild key (mkModule (.mk ns sti g mu ac mods) rt)) hm
        have hreg : ModuleCollection.register root (pre ++ [key])
            (.mk ns sti g mu ac mods) rt = registerModules r1 (pre ++ [key]) mods rt := by
          rw [ModuleCollection.register]
          rw [if_neg (by simp : ¬ (pre ++ [key] = []))]
          rw [List.dropLast_concat, List.getLastD_concat, hr1]
        have hpk : pathGet r1 (pre ++ [key])
            = some (mkModule (.mk ns sti g mu ac mods) rt) := by
          rw [pathGet_append, hp1]
          simp [pathGet, Module.getChild_addChild_self]
        have hrm := ih.2 mods hmods r1 (pre ++ [key]) rt _ hpk
        rw [hreg, hrm,
          graft_then_modify pre root m r1 key (mkModule (.mk ns sti g mu ac mods) rt)
            (fun par => buildInto par mods rt) hm hr1]
        rw [show buildModule (.mk ns sti g mu ac mods) rt
          = buildInto (mkModule (.mk ns sti g mu ac mods) rt) mods rt from by
            rw [buildModule]]
      · intro list hsz root q rt mq hq
        cases list with
        | nil =>
            rw [registerModules]
            simp only [buildInto]
            exact (modifyAt_id q root mq hq).symm
        | cons p rest =>
            obtain ⟨key, rc⟩ := p
            have hrc : sizeOf rc ≤ fuel := by simp at hsz; omega
            have hrest : sizeOf rest ≤ fuel := by simp at hsz; omega
            have hreg := ih.1 rc hrc root q key rt mq hq
            obtain ⟨r2, hr2, hp2⟩ := modifyAt_spec q root mq
              (fun par => par.addChild key (buildModule rc rt)) hq
            rw [registerModules, hreg, hr2]
            show registerModules r2 q rest rt
              = modifyAt root q fun par => buildInto par ((key, rc) :: rest) rt
            rw [ih.2 rest hrest r2 q rt _ hp2]
            rw [modifyAt_modifyAt q root mq r2
              (fun par => par.addChild key (buildModule rc rt))
              (fun par => buildInto par rest rt) hq hr2]
            simp only [buildInto]

/-!
## Claim C4: register / isRegistered / unregister round trip
-/

/-- C4 (confirmed): for a non-empty path whose parent prefix resolves,
`register(p, decl, true)` makes `isRegistered(p)` true, a subsequent
`unregister(p)` makes it false again; and `unregister` on a path holding a
module whose `runtime` flag is false returns with the tree unchanged. -/
theorem claim_C4 :
    (∀ (root : Module) (p : List String) (raw : Raw) (parent : Module),
       p ≠ [] →
       pathGet root p.dropLast = some parent →
       ∃ root', ModuleCollection.register root p raw true = some root' ∧
         ModuleCollection.isRegistered root' p = .ok true ∧
         ∃ root'', ModuleCollection.unregister root' p = .ok root'' ∧
           ModuleCollection.isRegistered root'' p = .ok false) ∧
    (∀ (root : Module) (p : List String) (parent child : Module),
       ModuleCollection.get root p.dropLast = .ok (some parent) →
       parent.getChild (p.getLastD ("")) = some child →
       child.runtime = false →
       ModuleCollection.unregister root p = .ok root) := by
  constructor
  · intro root p raw parent hne hp
    set pre := p.dropLast with hpre
    set key := p.getLastD ("") with hkey
    have hsplit : pre ++ [key] = p := dropLast_append_getLastD p hne
    have hreg := (register_eq_aux (sizeOf raw)).1 raw le_rfl root pre key true parent hp
    obtain ⟨root', hr', hp'⟩ := modifyAt_spec pre root parent
      (fun par => par.addChild key (buildModule raw true)) hp
    rw [hsplit] at hreg
    refine ⟨root', by rw [hreg, hr'], ?_, ?_⟩
    · rw [ModuleCollection.isRegistered, ← hpre,
        mcGet_of_pathGet root' pre _ hp', ← hkey]
      simp [Module.hasChild, Module.children_addChild, getAssoc_setAssoc_self]
    · obtain ⟨root'', hr'', hp''⟩ := modifyAt_spec pre root'
        (parent.addChild key (buildModule raw true))
        (fun par => par.removeChild key) hp'
      refine ⟨root'', ?_, ?_⟩
      · rw [ModuleCollection.unregister, ← hpre,
          mcGet_of_pathGet root' pre _ hp', ← hkey]
        simp only [Module.getChild_addChild_self, runtime_buildModule,
          Bool.not_true, if_false, hr'']
        rfl
      · rw [ModuleCollection.isRegistered, ← hpre,
          mcGet_of_pathGet root'' pre _ hp'', ← hkey]
        simp [Module.hasChild, Module.getChild, Module.children_removeChild,
          getAssoc_removeAssoc_self]
  · intro root p parent child hget hchild hrt
    simp only [ModuleCollection.unregister, hget, hchild, hrt]
    rfl

/-- Witness for C4: registering `["x"]` on a childless root makes it
registered, unregistering removes it again; and a non-runtime child `"y"`
survives `unregister` unchanged. -/
theorem claim_C4_witness :
    (∃ root', ModuleCollection.register
        (Module.mk false (.obj []) false .undef .undef .undef []) ["x"]
        (Raw.mk false (.str ("s")) .undef .undef .undef []) true = some root' ∧
      ModuleCollection.isRegistered root' ["x"] = .ok true ∧
      ∃ root'', ModuleCollection.unregister root' ["x"] = .ok root'' ∧
        ModuleCollection.isRegistered root'' ["x"] = .ok false) ∧
    ModuleCollection.unregister
      (Module.mk false (.obj []) false .undef .undef .undef
        [("y", Module.mk false (.obj []) false .undef .undef .undef [])]) ["y"]
      = .ok (Module.mk false (.obj []) false .undef .undef .undef
        [("y", Module.mk false (.obj []) false .undef .undef .undef [])]) := by
  constructor
  · exact claim_C4.1 _ ["x"] (Raw.mk false (.str ("s")) .undef .undef .undef [])
      (Module.mk false (.obj []) false .undef .undef .undef []) (by simp) rfl
  · exact claim_C4.2 _ ["y"] _
      (Module.mk false (.obj []) false .undef .undef .undef []) rfl rfl rfl

/-!
## Lemmas: hot update (for C6)
-/

theorem Module.hasChild_false (m : Module) (k : String) :
    m.hasChild k = false ↔ m.getChild k = none := by
  unfold Module.hasChild Module.getChild
  cases getAssoc m.children k <;> simp

theorem Module.hasChild_true (m : Module) (k : String) :
    m.hasChild k = true ↔ ∃ c, m.getChild k = some c := by
  unfold Module.hasChild Module.getChild
  cases getAssoc m.children k <;> simp

theorem skeleton_updateTop (m : Module) (n : Raw) :
    skeleton (m.updateTop n) = skeleton m := by
  cases m with
  | mk rt st ns g mu ac cs =>
      show skeleton (.mk rt st n.namespaced _ _ _ cs) = skeleton (.mk rt st ns g mu ac cs)
      rw [skeleton, skeleton]

theorem Module.hasChild_updateTop (m : Module) (n : Raw) (x : String) :
    (m.updateTop n).hasChild x = m.hasChild x := by
  cases m; rfl

theorem skeletonChildren_setAssoc (l : List (String × Module)) (key : String)
    (c c' : Module) (hg : getAssoc l key = some c) (hs : skeleton c' = skeleton c) :
    skeletonChildren (setAssoc l key c') = skeletonChildren l := by
  induction l with
  | nil => simp at hg
  | cons p rest ih =>
      obtain ⟨k, w⟩ := p
      by_cases hk : k = key
      · subst hk
        simp at hg
        subst hg
        rw [setAssoc, if_pos rfl, skeletonChildren, skeletonChildren, hs]
      · simp only [getAssoc_cons, if_neg hk] at hg
        rw [setAssoc, if_neg hk, skeletonChildren, skeletonChildren, ih hg]

theorem skeleton_addChild (m : Module) (key : String) (c c' : Module)
    (hg : m.getChild key = some c) (hs : skeleton c' = skeleton c) :
    skeleton (m.addChild key c') = skeleton m := by
  cases m with
  | mk rt st ns g mu ac cs =>
      simp only [Module.getChild, Module.children] at hg
      show skeleton (.mk rt st ns g mu ac (setAssoc cs key c')) = _
      rw [skeleton, skeleton, skeletonChildren_setAssoc cs key c c' hg hs]

theorem hasChild_updateModules (list : List (String × Raw)) :
    ∀ (s : Module) (x : String),
      (updateModules s list).hasChild x = s.hasChild x := by
  induction list with
  | nil => intro s x; rw [updateModules]
  | cons p rest ih =>
      obtain ⟨key, nk⟩ := p
      intro s x
      rw [updateModules]
      cases hc : s.getChild key with
      | none => rfl
      | some c =>
          show (updateModules (s.addChild key (updateGo c nk)) rest).hasChild x
            = s.hasChild x
          rw [ih]
          exact Module.hasChild_addChild s key x (updateGo c nk) (by simp [hc])

/-- Skeleton (state and children structure, recursively) preservation for
the hot-update walk, by strong induction on size. -/
theorem skeleton_updateGo_aux : ∀ (fuel : Nat),
    (∀ (n : Raw), sizeOf n ≤ fuel → ∀ (t : Module),
       skeleton (updateGo t n) = skeleton t) ∧
    (∀ (list : List (String × Raw)), sizeOf list ≤ fuel → ∀ (s : Module),
       skeleton (updateModules s list) = skeleton s) := by
  intro fuel
  induction fuel with
  | zero =>
      constructor
      · intro n hsz
        obtain ⟨ns, sti, g, mu, ac, mods⟩ := n
        simp only [Raw.mk.sizeOf_spec] at hsz
        omega
      · intro list hsz
        cases list with
        | nil =>
            simp only [List.nil.sizeOf_spec] at hsz
            omega
        | cons p rest =>
            simp only [List.cons.sizeOf_spec] at hsz
            omega
  | succ fuel ih =>
      constructor
      · intro n hsz t
        obtain ⟨ns, sti, g, mu, ac, mods⟩ := n
        have hmods : sizeOf mods ≤ fuel := by
          simp only [Raw.mk.sizeOf_spec] at hsz
          omega
        rw [updateGo, ih.2 mods hmods]
        exact skeleton_updateTop t _
      · intro list hsz s
        cases list with
        | nil => rw [updateModules]
        | cons p rest =>
            obtain ⟨key, nk⟩ := p
            have hnk : sizeOf nk ≤ fuel := by
              simp only [List.cons.sizeOf_spec, Prod.mk.sizeOf_spec] at hsz
              omega
            have hrest : sizeOf rest ≤ fuel := by
              simp only [List.cons.sizeOf_spec] at hsz
              omega
            rw [updateModules]
            cases hc : s.getChild key with
            | none => rfl
            | some c =>
                show skeleton (updateModules (s.addChild key (updateGo c nk)) rest)
                  = skeleton s
                rw [ih.2 rest hrest]
                exact skeleton_addChild s key c (updateGo c nk) hc (ih.1 nk hnk c)

/-- The `for … in newModule.modules` walk aborts at the first key with no
matching child, leaving exactly the earlier entries processed. -/
theorem updateModules_abort : ∀ (pre : List (String × Raw)) (s : Module)
    (k : String) (nk : Raw) (post : List (String × Raw)),
    (∀ q ∈ pre, s.hasChild q.1 = true) → s.hasChild k = false →
    updateModules s (pre ++ (k, nk) :: post) = updateModules s pre := by
  intro pre
  induction pre with
  | nil =>
      intro s k nk post _ hk
      show updateModules s ((k, nk) :: post) = updateModules s []
      simp only [updateModules, (Module.hasChild_false s k).mp hk]
  | cons p pre' ih =>
      obtain ⟨k1, n1⟩ := p
      intro s k nk post hpre hk
      obtain ⟨c1, hc1⟩ := (Module.hasChild_true s k1).mp (hpre (k1, n1) (by simp))
      show updateModules s ((k1, n1) :: (pre' ++ (k, nk) :: post))
        = updateModules s ((k1, n1) :: pre')
      simp only [updateModules, hc1]
      show updateModules (s.addChild k1 (updateGo c1 n1)) (pre' ++ (k, nk) :: post)
        = updateModules (s.addChild k1 (updateGo c1 n1)) pre'
      apply ih
      · intro q hq
        rw [Module.hasChild_addChild s k1 q.1 (updateGo c1 n1) (by simp [hc1])]
        exact hpre q (List.mem_cons_of_mem _ hq)
      · rw [Module.hasChild_addChild s k1 k (updateGo c1 n1) (by simp [hc1])]
        exact hk

/-!
## Claim C6: hot update (structure preserved, branch aborted at unknown key)
-/

/-- C6 (confirmed): `ModuleCollection.update` never changes the structural
skeleton of the tree — no module is added or removed and no module's state
is replaced; and when the new declaration's child list is
`pre ++ (k, nk) :: post` with every `pre` key present but `k` unknown, the
walk stops right after processing `pre` (earlier siblings remain updated,
the unknown module is not added, nothing after `k` is touched). -/
theorem claim_C6 :
    (∀ (t : Module) (n : Raw),
       skeleton (ModuleCollection.update t n) = skeleton t) ∧
    (∀ (t : Module) (n : Raw) (pre : List (String × Raw)) (k : String) (nk : Raw)
       (post : List (String × Raw)),
       n.modules = pre ++ (k, nk) :: post →
       (∀ q ∈ pre, t.hasChild q.1 = true) →
       t.hasChild k = false →
       ModuleCollection.update t n = updateModules (t.updateTop n) pre ∧
       (ModuleCollection.update t n).hasChild k = false) := by
  have hupd : ∀ (t : Module) (n : Raw),
      ModuleCollection.update t n = updateModules (t.updateTop n) n.modules := by
    intro t n
    obtain ⟨ns, sti, g, mu, ac, mods⟩ := n
    rw [ModuleCollection.update, updateGo]
    rfl
  constructor
  · intro t n
    rw [ModuleCollection.update]
    exact (skeleton_updateGo_aux (sizeOf n)).1 n le_rfl t
  · intro t n pre k nk post hmods hpre hk
    have habort : ModuleCollection.update t n = updateModules (t.updateTop n) pre := by
      rw [hupd, hmods]
      exact updateModules_abort pre (t.updateTop n) k nk post
        (fun q hq => by rw [Module.hasChild_updateTop]; exact hpre q hq)
        (by rw [Module.hasChild_updateTop]; exact hk)
    refine ⟨habort, ?_⟩
    rw [habort, hasChild_updateModules, Module.hasChild_updateTop]
    exact hk

/-- Witness for C6: a tree with the single child `"a"`, hot-updated by a
declaration with children `"a"` then `"b"` — the skeleton is unchanged, the
walk stops after `"a"`, and `"b"` is not added. -/
theorem claim_C6_witness :
    skeleton (ModuleCollection.update
      (Module.mk false (.num 0) false .undef .undef .undef
        [("a", Module.mk false (.num 1) false .undef .undef .undef [])])
      (Raw.mk true .undef (.str ("G")) (.str ("M")) (.str ("A"))
        [("a", Raw.mk false .undef .undef .undef .undef []),
         ("b", Raw.mk false .undef .undef .undef .undef [])])) =
      skeleton (Module.mk false (.num 0) false .undef .undef .undef
        [("a", Module.mk false (.num 1) false .undef .undef .undef [])]) ∧
    ModuleCollection.update
      (Module.mk false (.num 0) false .undef .undef .undef
        [("a", Module.mk false (.num 1) false .undef .undef .undef [])])
      (Raw.mk true .undef (.str ("G")) (.str ("M")) (.str ("A"))
        [("a", Raw.mk false .undef .undef .undef .undef []),
         ("b", Raw.mk false .undef .undef .undef .undef [])]) =
      updateModules
        ((Module.mk false (.num 0) false .undef .undef .undef
          [("a", Module.mk false (.num 1) false .undef .undef .undef [])]).updateTop
          (Raw.mk true .undef (.str ("G")) (.str ("M")) (.str ("A"))
            [("a", Raw.mk false .undef .undef .undef .undef []),
             ("b", Raw.mk false .undef .undef .undef .undef [])]))
        [("a", Raw.mk false .undef .undef .undef .undef [])] ∧
    (ModuleCollection.update
      (Module.mk false (.num 0) false .undef .undef .undef
        [("a", Module.mk false (.num 1) false .undef .undef .undef [])])
      (Raw.mk true .undef (.str ("G")) (.str ("M")) (.str ("A"))
        [("a", Raw.mk false .undef .undef .undef .undef []),
         ("b", Raw.mk false .undef .undef .undef .undef [])])).hasChild ("b") = false := by
  refine ⟨claim_C6.1 _ _, ?_⟩
  have h := claim_C6.2
    (Module.mk false (.num 0) false .undef .undef .undef
      [("a", Module.mk false (.num 1) false .undef .undef .undef [])])
    (Raw.mk true .undef (.str ("G")) (.str ("M")) (.str ("A"))
      [("a", Raw.mk false .undef .undef .undef .undef []),
       ("b", Raw.mk false .undef .undef .undef .undef [])])
    [("a", Raw.mk false .undef .undef .undef .undef [])] "b"
    (Raw.mk false .undef .undef .undef .undef []) [] rfl
    (fun q hq => by
      rw [List.mem_singleton] at hq
      subst hq
      rfl)
    rfl
  exact h

end Vuex
